import Mathlib

/-
Verification of the deb-to-apg conversion pipeline (src/main.py of
NurOS-Linux/debtoapg) against its natural-language specification.

The program is shallowly embedded: the filesystem staging tree is a finite
tree of named entries (regular files carry their raw bytes), and the external
collaborators of the program — the dpkg-deb tool, the hashlib SHA-256
implementation, the text codec used by Python file objects, the json
serializer and the xz compressor — are modelled as parameters (they are
library/tool code, not code of this repository).  All definitions follow
src/main.py; the few spec-side characterizations used to state claims are
named and commented as such.
-/

namespace DebToApg

/- A filesystem entry: a regular file with raw byte content, or a directory
with a list of named children.  `FSList` is the children list of a directory
(names paired with entries, in directory-listing order). -/
mutual

inductive FSTree where
  | file (content : List Nat)
  | dir (children : FSList)
deriving DecidableEq

inductive FSList where
  | nil
  | cons (name : String) (tree : FSTree) (rest : FSList)
deriving DecidableEq

end

/-- Name lookup in a directory listing (first match; real directories have
distinct names, which well-formedness below captures). -/
def lookupFS : FSList → String → Option FSTree
  | .nil, _ => none
  | .cons n t rest, key => if n = key then some t else lookupFS rest key

/-- Whether a directory listing contains an entry of the given name. -/
def hasName : FSList → String → Bool
  | .nil, _ => false
  | .cons n _ rest, key => n = key || hasName rest key

/-- Concatenation of directory listings. -/
def appendFS : FSList → FSList → FSList
  | .nil, b => b
  | .cons n t rest, b => .cons n t (appendFS rest b)

/-- The entries whose name differs from `bad` (used to model the move loop of
`create_apg`, which skips fixed names). -/
def removeName (bad : String) : FSList → FSList
  | .nil => .nil
  | .cons n t rest =>
      if n = bad then removeName bad rest else .cons n t (removeName bad rest)

/-- The entries whose name equals `good` (what the move loop leaves behind at
the staging root). -/
def keepName (good : String) : FSList → FSList
  | .nil => .nil
  | .cons n t rest =>
      if n = good then .cons n t (keepName good rest) else keepName good rest

/-- The names of a directory listing. -/
def namesOf : FSList → List String
  | .nil => []
  | .cons n _ rest => n :: namesOf rest

/-- A legal filename component: nonempty and without the path separator. -/
def validName (n : String) : Bool := decide (n ≠ "" ∧ '/' ∉ n.data)

/- Well-formedness of a staging tree, as guaranteed by a real filesystem:
sibling names are pairwise distinct, every name is a legal component. -/
mutual

def wfTree : FSTree → Bool
  | .file _ => true
  | .dir cs => wfList cs

def wfList : FSList → Bool
  | .nil => true
  | .cons n t rest => validName n && wfTree t && !hasName rest n && wfList rest

end

/-- POSIX relative-path rendering of path components, as produced by
`os.path.relpath`/`os.path.join` on Linux: components joined by `/`. -/
def joinPath : List String → String
  | [] => ""
  | [p] => p
  | p :: ps => p ++ "/" ++ joinPath ps

/- Spec-side enumeration of the regular files of a tree with their relative
path components — the reference notion of "the set of regular files under a
directory, keyed by relative path" that the claims quantify over. -/
mutual

def filesOfTree (n : String) : FSTree → List (List String × List Nat)
  | .file c => [([n], c)]
  | .dir cs => (filesOfList cs).map (fun pc => (n :: pc.1, pc.2))

def filesOfList : FSList → List (List String × List Nat)
  | .nil => []
  | .cons n t rest => filesOfTree n t ++ filesOfList rest

end

/-- The regular files sitting directly in a directory listing, in listing
order (the `files` component of one `os.walk` step). -/
def filesHere : FSList → List (String × List Nat)
  | .nil => []
  | .cons n (.file c) rest => (n, c) :: filesHere rest
  | .cons _ (.dir _) rest => filesHere rest

/-- The recursive part of `os.walk` (top-down): for every subdirectory, its
own files first, then its subdirectories, in listing order.  `pre` is the
relative path accumulated so far. -/
def walkSubs (pre : List String) : FSList → List (List String × List Nat)
  | .nil => []
  | .cons _ (.file _) rest => walkSubs pre rest
  | .cons n (.dir cs) rest =>
      ((filesHere cs).map fun nc => (pre ++ [n, nc.1], nc.2))
        ++ walkSubs (pre ++ [n]) cs ++ walkSubs pre rest
termination_by cs => sizeOf cs

/-- `os.walk(directory)` in emission order: the files of the root first, then
the recursive contents of each subdirectory. -/
def walkList (pre : List String) (cs : FSList) : List (List String × List Nat) :=
  ((filesHere cs).map fun nc => (pre ++ [nc.1], nc.2)) ++ walkSubs pre cs

/-- `DebToApgConverter.calculate_checksums`: walk the directory with
`os.walk`; for every regular file record its path relative to the walked
directory mapped to the digest of its raw bytes.  `H` models
`hashlib.sha256(...).hexdigest()` (external library).  The Python dict is
modelled as the association list in insertion order. -/
def calculate_checksums (H : List Nat → String) (d : FSList) : List (String × String) :=
  (walkList [] d).map fun pc => (joinPath pc.1, H pc.2)

/-- The fixed stamp fields of `generate_metadata`, in insertion order:
creation timestamp (`datetime.utcnow().isoformat()`, passed in as `now`),
converter version, converter identity, author. -/
def base_metadata (now : String) : List (String × String) :=
  [("created", now), ("converter_version", "1.0.0"),
   ("converter", "debtoapg"), ("author", "AnmiTaliDev")]

/-- The fixed, ordered control-file list of `generate_metadata`. -/
def control_files : List String :=
  ["control", "preinst", "postinst", "prerm", "postrm", "triggers", "conffiles"]

/-- The loop body of `generate_metadata` over the control-file list: for each
name that exists under the DEBIAN listing `cs`, read its text and record it
under that name.  `os.path.exists` is also true for a directory entry, on
which `open(..., 'r')` then raises (`none`).  `decode` models the text codec
of Python text-mode reads (external). -/
def metaEntries (decode : List Nat → String) (cs : FSList) :
    List String → Option (List (String × String))
  | [] => some []
  | f :: rest =>
      match lookupFS cs f with
      | some (.file c) => (metaEntries decode cs rest).map fun ms => (f, decode c) :: ms
      | some (.dir _) => none
      | none => metaEntries decode cs rest

/-- `DebToApgConverter.generate_metadata`: the stamp fields, then one field
per existing control file under `<staging root>/DEBIAN`, read verbatim.  If
`DEBIAN` is absent (or is a regular file), no control path exists and only
the stamp fields are produced. -/
def generate_metadata (now : String) (decode : List Nat → String) (temp : FSList) :
    Option (List (String × String)) :=
  match lookupFS temp "DEBIAN" with
  | some (.dir cs) => (metaEntries decode cs control_files).map fun ms => base_metadata now ++ ms
  | _ => some (base_metadata now)

/-- Association-list lookup (first match), modelling Python dict access for
dicts built by in-order insertion of distinct keys. -/
def lookupA {α : Type} : List (String × α) → String → Option α
  | [], _ => none
  | (k, v) :: rest, key => if k = key then some v else lookupA rest key

/-- Spec-side characterization used to state C4: the byte content of control
file `f` of the control subtree, when `<root>/DEBIAN/<f>` is a regular file. -/
def controlContent (temp : FSList) (f : String) : Option (List Nat) :=
  match lookupFS temp "DEBIAN" with
  | some (.dir cs) =>
      match lookupFS cs f with
      | some (.file c) => some c
      | _ => none
  | _ => none

/-- A member of the output tar archive: a directory entry or a file entry
with its byte content. -/
inductive TarEntry where
  | dir
  | file (content : List Nat)
deriving DecidableEq

/-- `os.path.join(arc, n)` for the relative archive names produced by
`tarfile.add` starting from `arcname=''`. -/
def joinArc (arc n : String) : String := if arc = "" then n else arc ++ "/" ++ n

/- `tarfile.TarFile.add(path, arcname)` with `recursive=True`: one member for
the added entry itself, then for a directory the members of each child under
`os.path.join(arcname, childname)`.  (tarfile visits children in sorted
order; the member list is modelled in listing order, and every claim about
the archive is order-independent.) -/
mutual

def tarAddTree (arc : String) : FSTree → List (String × TarEntry)
  | .file c => [(arc, .file c)]
  | .dir cs => (arc, .dir) :: tarAddList arc cs

def tarAddList (arc : String) : FSList → List (String × TarEntry)
  | .nil => []
  | .cons n t rest => tarAddTree (joinArc arc n) t ++ tarAddList arc rest

end

/- Spec-side enumeration of every entry (files and directories) of a tree
with its relative path components, used to state C7. -/
mutual

def entriesOfTree (n : String) : FSTree → List (List String × TarEntry)
  | .file c => [([n], .file c)]
  | .dir cs => ([n], .dir) :: (entriesOfList cs).map (fun pe => (n :: pe.1, pe.2))

def entriesOfList : FSList → List (List String × TarEntry)
  | .nil => []
  | .cons n t rest => entriesOfTree n t ++ entriesOfList rest

end

/-- The external collaborators and ambient values `create_apg` depends on:
the hash function (`hashlib`), the text codec of Python file objects, the
json serializer (`json.dump(..., indent=2)`), the UTC timestamp taken at
metadata generation, and whether the tar/xz write of the output file
succeeds (an I/O property of the output path). -/
structure Env where
  sha256hex : List Nat → String
  decode : List Nat → String
  encode : String → List Nat
  jsonDump : List (String × String) → String
  now : String
  tarOk : Bool

/-- The exceptions `create_apg` can raise: `FileExistsError` from
`os.makedirs` when a top-level `apg` entry already exists, an error reading a
control entry that is a directory, and an I/O error writing the output
archive. -/
inductive CreateErr where
  | apgExists
  | controlUnreadable
  | tarFailed
deriving DecidableEq

/-- The effects of a successful `create_apg`: the staging-root listing after
it ran, the listing of the archive-root directory `<staging>/apg`, and the
members written into the output archive. -/
structure ApgResult where
  temp : FSList
  apg : FSList
  archive : List (String × TarEntry)
deriving DecidableEq

/-- `DebToApgConverter.create_apg`:
`os.makedirs(<staging>/apg)` (raising if `apg` already exists), then
`os.makedirs(<staging>/apg/data)`; the move loop over `os.listdir` of the
staging root moves every entry not named `DEBIAN` or `apg` into `apg/data`
(the snapshot taken by `os.listdir` already contains the fresh `apg`, which
the name test skips); then `metadata.json` and `checksums.json` are written
under `apg`, and `tar.add(apg_root, arcname='')` writes the archive.
The position of the fresh `apg` entry in the staging listing is not
observable in Python (directory listings are unordered); it is modelled at
the end of the listing. -/
def create_apg (env : Env) (temp : FSList) : Except CreateErr ApgResult :=
  if (lookupFS temp "apg").isSome then .error .apgExists
  else
    let moved := removeName "DEBIAN" temp
    let kept := keepName "DEBIAN" temp
    let afterMove := appendFS kept
      (FSList.cons "apg" (.dir (FSList.cons "data" (.dir moved) FSList.nil)) FSList.nil)
    match generate_metadata env.now env.decode afterMove with
    | none => .error .controlUnreadable
    | some md =>
        let cks := calculate_checksums env.sha256hex moved
        let apgChildren : FSList :=
          FSList.cons "data" (.dir moved)
            (FSList.cons "metadata.json" (.file (env.encode (env.jsonDump md)))
              (FSList.cons "checksums.json" (.file (env.encode (env.jsonDump cks))) FSList.nil))
        if env.tarOk then
          .ok { temp := appendFS kept (FSList.cons "apg" (.dir apgChildren) FSList.nil),
                apg := apgChildren,
                archive := tarAddTree "" (.dir apgChildren) }
        else .error .tarFailed

/-- One conversion run's view of the world: the input path's existence and
name, the outcomes and diagnostic output of the external `dpkg-deb` queries
(`--info`, `--contents`, `-R`), the tree the extraction produces on success,
the byte size `os.path.getsize` reports for the written output file, and the
environment of `create_apg`. -/
structure World where
  inputExists : Bool
  input : String
  infoOk : Bool
  infoErr : String
  contentsOk : Bool
  contentsErr : String
  extractOk : Bool
  extractErr : String
  extracted : FSList
  outSize : Nat
  env : Env

/-- The error taxonomy of the pipeline, following the spec's names for the
exceptions of src/main.py (`ValueError` for the two validation failures,
`RuntimeError` for extraction, the `create_apg` exceptions for packaging). -/
inductive ConvError where
  | invalidInput (msg : String)
  | invalidPackage (msg : String)
  | extractionFailed (msg : String)
  | packagingFailed (e : CreateErr)
deriving DecidableEq

/-- Python's `str.endswith`: the suffix's characters end the string. -/
def strEndsWith (s suffix : String) : Bool := suffix.data.isSuffixOf s.data

/-- `DebToApgConverter.validate_deb`: existence check, extension check, then
the two `dpkg-deb` queries with `check=True`; a `CalledProcessError` is
re-raised as `ValueError` carrying the failing call's stderr. -/
def validate_deb (w : World) : Except ConvError Unit :=
  if !w.inputExists then .error (.invalidInput "Input file does not exist")
  else if !(strEndsWith w.input ".deb") then
    .error (.invalidInput "Input file must be a .deb package")
  else if !w.infoOk then
    .error (.invalidPackage ("Invalid or corrupted .deb package: " ++ w.infoErr))
  else if !w.contentsOk then
    .error (.invalidPackage ("Invalid or corrupted .deb package: " ++ w.contentsErr))
  else .ok ()

/-- Outcome of `DebToApgConverter.extract_deb`: the result value, whether
`tempfile.mkdtemp` ran (it always does, first), and whether the temporary
directory still exists on disk when `extract_deb` returns or raises (on
`dpkg-deb -R` failure it calls `cleanup()` before raising). -/
structure ExtractResult where
  result : Except ConvError FSList
  tempCreated : Bool
  tempExists : Bool

/-- `DebToApgConverter.extract_deb`. -/
def extract_deb (w : World) : ExtractResult :=
  if w.extractOk then
    { result := .ok w.extracted, tempCreated := true, tempExists := true }
  else
    { result := .error (.extractionFailed ("Failed to extract .deb: " ++ w.extractErr)),
      tempCreated := true, tempExists := false }

/-- Resource state visible after the pipeline (or a stage) ran: whether the
Job's temporary directory was ever created and whether it still exists on
disk; whether `dpkg-deb -R` was invoked; the archive members written; and
the byte count `convert` reports on success. -/
structure ConvState where
  tempCreated : Bool
  tempExists : Bool
  extractionAttempted : Bool
  archiveWritten : Option (List (String × TarEntry))
  reportedBytes : Option Nat
deriving DecidableEq

/-- `DebToApgConverter.cleanup`: remove the temporary directory when it was
created and still exists; afterwards it never exists. -/
def cleanupState (st : ConvState) : ConvState := { st with tempExists := false }

/-- The `try` body of `DebToApgConverter.convert`: validate, extract,
create_apg, report the output size (`os.path.getsize(output_file)`).  The
`except` clause only logs and re-raises, so the result value is the raised
exception or success. -/
def runStages (w : World) : Except ConvError Unit × ConvState :=
  match validate_deb w with
  | .error e =>
      (.error e,
       { tempCreated := false, tempExists := false, extractionAttempted := false,
         archiveWritten := none, reportedBytes := none })
  | .ok _ =>
      match (extract_deb w).result with
      | .error e =>
          (.error e,
           { tempCreated := (extract_deb w).tempCreated,
             tempExists := (extract_deb w).tempExists, extractionAttempted := true,
             archiveWritten := none, reportedBytes := none })
      | .ok tree =>
          match create_apg w.env tree with
          | .error ce =>
              (.error (.packagingFailed ce),
               { tempCreated := true, tempExists := true, extractionAttempted := true,
                 archiveWritten := none, reportedBytes := none })
          | .ok r =>
              (.ok (),
               { tempCreated := true, tempExists := true, extractionAttempted := true,
                 archiveWritten := some r.archive, reportedBytes := some w.outSize })

/-- `DebToApgConverter.convert`: the `try` body wrapped in
`finally: self.cleanup()` — the cleanup applies to every exit path, normal
return and exception propagation alike. -/
def convertRun (w : World) : Except ConvError Unit × ConvState :=
  ((runStages w).1, cleanupState (runStages w).2)

/-- The parsed command line (`argparse` itself is an external collaborator;
`input` is the optional positional argument, `output` the `-o` option). -/
structure Args where
  input : Option String
  output : Option String
  verbose : Bool
  version : Bool
deriving DecidableEq

/-- What happens if and when `convert` is entered: normal return, a
`KeyboardInterrupt`, or an exception with a message. -/
inductive RunOutcome where
  | ok
  | interrupted
  | raised (msg : String)
deriving DecidableEq

/-- User-visible actions of `main`, in order. -/
inductive MainAction where
  | printedVersion
  | printedHelp
  | ranConversion
  | printedCancelled
  | printedError (msg : String)
deriving DecidableEq

/-- Python truthiness of an optional string argument, as tested by
`not args.input` / `not args.output` in `main`: `None` is falsy, and so is
the empty string. -/
def pyFalsy : Option String → Bool
  | none => true
  | some s => s == ""

/-- `main` after argument parsing: the version flag short-circuits with exit
code 0; then `if not args.input or not args.output` (Python truthiness: a
missing or empty-string argument) prints the help and returns 1; then the
conversion runs, with `KeyboardInterrupt` mapped to 130 and any other
exception printed and mapped to 1. -/
def mainRun (args : Args) (outcome : RunOutcome) : Nat × List MainAction :=
  if args.version then (0, [.printedVersion])
  else if pyFalsy args.input || pyFalsy args.output then (1, [.printedHelp])
  else
    match outcome with
    | .ok => (0, [.ranConversion])
    | .interrupted => (130, [.ranConversion, .printedCancelled])
    | .raised m => (1, [.ranConversion, .printedError m])

/-- A concrete environment used to evaluate the model in witnesses. -/
def sampleEnv : Env :=
  { sha256hex := fun c => "sha" ++ toString c.length
    decode := fun c => "txt" ++ toString c.length
    encode := fun _ => [9]
    jsonDump := fun l => toString l.length
    now := "2025-01-06T15:56:29"
    tarOk := true }

/-- A concrete extracted staging tree: a control subtree with one control
file, and a payload with a nested file `usr/bin/x` and a top-level file. -/
def sampleTree : FSList :=
  .cons "DEBIAN" (.dir (.cons "control" (.file [2, 3]) .nil))
    (.cons "usr" (.dir (.cons "bin" (.dir (.cons "x" (.file [7]) .nil)) .nil))
      (.cons "readme" (.file [5]) .nil))

/-- A concrete world in which every external call succeeds. -/
def sampleWorld : World :=
  { inputExists := true, input := "pkg.deb", infoOk := true, infoErr := ""
    contentsOk := true, contentsErr := "", extractOk := true, extractErr := ""
    extracted := sampleTree, outSize := 2048, env := sampleEnv }

/-- Variant: the input path does not exist. -/
def wNoFile : World := { sampleWorld with inputExists := false }

/-- Variant: the input path exists but is not named `*.deb`. -/
def wBadExt : World := { sampleWorld with input := "pkg.txt" }

/-- Variant: `dpkg-deb --info` fails. -/
def wBadInfo : World := { sampleWorld with infoOk := false, infoErr := "info diag" }

/-- Variant: `dpkg-deb --contents` fails. -/
def wBadContents : World := { sampleWorld with contentsOk := false, contentsErr := "contents diag" }

/-- Variant: `dpkg-deb -R` fails. -/
def wExtractFail : World := { sampleWorld with extractOk := false, extractErr := "boom" }

/-- Variant: the extracted payload has a top-level entry named `apg`. -/
def wApgEntry : World :=
  { sampleWorld with extracted := .cons "apg" (.dir .nil) sampleTree }

/-- The `ApgResult` of the successful `create_apg` run on `sampleTree`, used
by witnesses (the fallback arm is unreachable on this input). -/
def sampleApgResult : ApgResult :=
  match create_apg sampleEnv sampleTree with
  | .ok r => r
  | .error _ => { temp := .nil, apg := .nil, archive := [] }

/- ## String and path lemmas -/

theorem string_data_append (s t : String) : (s ++ t).data = s.data ++ t.data := by
  cases s
  cases t
  rfl

theorem string_eq_of_data {s t : String} (h : s.data = t.data) : s = t := by
  cases s
  cases t
  exact congrArg String.mk h

theorem validName_iff {n : String} : validName n = true ↔ n ≠ "" ∧ '/' ∉ n.data := by
  simp [validName]

theorem joinPath_cons_cons (p q : String) (ps : List String) :
    joinPath (p :: q :: ps) = p ++ "/" ++ joinPath (q :: ps) := rfl

theorem joinPath_data_cons_cons (p q : String) (ps : List String) :
    (joinPath (p :: q :: ps)).data = p.data ++ '/' :: (joinPath (q :: ps)).data := by
  have hs : "/".data = ['/'] := rfl
  rw [joinPath_cons_cons, string_data_append, string_data_append, hs, List.append_assoc]
  rfl

theorem slash_split (xs : List Char) : ∀ (ex ys zs : List Char), '/' ∉ xs → '/' ∉ ex →
    xs ++ '/' :: ys = ex ++ '/' :: zs → xs = ex ∧ ys = zs := by
  induction xs with
  | nil =>
    intro ex ys zs _ hex h
    cases ex with
    | nil => simpa using h
    | cons a as =>
      rw [List.nil_append, List.cons_append] at h
      injection h with h1 _
      subst h1
      simp at hex
  | cons x xs ih =>
    intro ex ys zs hx hex h
    cases ex with
    | nil =>
      rw [List.nil_append, List.cons_append] at h
      injection h with h1 _
      subst h1
      simp at hx
    | cons a as =>
      rw [List.cons_append, List.cons_append] at h
      injection h with h1 h2
      subst h1
      simp only [List.mem_cons, not_or] at hx hex
      obtain ⟨heq, hys⟩ := ih as ys zs hx.2 hex.2 h2
      exact ⟨by rw [heq], hys⟩

theorem joinPath_inj (p₁ : List String) : ∀ (p₂ : List String), p₁ ≠ [] → p₂ ≠ [] →
    (∀ s ∈ p₁, validName s = true) → (∀ s ∈ p₂, validName s = true) →
    joinPath p₁ = joinPath p₂ → p₁ = p₂ := by
  induction p₁ with
  | nil =>
    intro p₂ hn₁ hn₂ h₁ h₂ h
    exact absurd rfl hn₁
  | cons a t₁ ih =>
    intro p₂ hn₁ hn₂ h₁ h₂ h
    cases p₂ with
    | nil => exact absurd rfl hn₂
    | cons b t₂ =>
      cases t₁ with
      | nil =>
        cases t₂ with
        | nil =>
          have : a = b := h
          rw [this]
        | cons b' bs =>
          exfalso
          have hd : a.data = b.data ++ '/' :: (joinPath (b' :: bs)).data := by
            have := congrArg String.data h
            rwa [joinPath_data_cons_cons] at this
          have hv := (validName_iff.mp (h₁ a (List.mem_cons_self a []))).2
          rw [hd] at hv
          exact hv (List.mem_append_right _ (List.mem_cons_self _ _))
      | cons a' as =>
        cases t₂ with
        | nil =>
          exfalso
          have hd : b.data = a.data ++ '/' :: (joinPath (a' :: as)).data := by
            have := congrArg String.data h.symm
            rwa [joinPath_data_cons_cons] at this
          have hv := (validName_iff.mp (h₂ b (List.mem_cons_self b []))).2
          rw [hd] at hv
          exact hv (List.mem_append_right _ (List.mem_cons_self _ _))
        | cons b' bs =>
          have hd := congrArg String.data h
          rw [joinPath_data_cons_cons, joinPath_data_cons_cons] at hd
          have hva := (validName_iff.mp (h₁ a (List.mem_cons_self _ _))).2
          have hvb := (validName_iff.mp (h₂ b (List.mem_cons_self _ _))).2
          obtain ⟨hab, hrest⟩ := slash_split a.data b.data _ _ hva hvb hd
          have hab' : a = b := string_eq_of_data hab
          have htail := ih (b' :: bs) (by simp) (by simp)
            (fun s hs => h₁ s (List.mem_cons_of_mem _ hs))
            (fun s hs => h₂ s (List.mem_cons_of_mem _ hs))
            (string_eq_of_data hrest)
          rw [hab', htail]

theorem perm_swap_blocks {α : Type} (A B C : List α) : (A ++ (B ++ C)).Perm (B ++ (A ++ C)) := by
  rw [← List.append_assoc, ← List.append_assoc]
  exact List.perm_append_comm.append_right C

/- ## Lemmas about the regular-file enumeration -/

theorem wfList_cons {n : String} {t : FSTree} {rest : FSList} :
    wfList (.cons n t rest) = true ↔
      validName n = true ∧ wfTree t = true ∧ hasName rest n = false ∧ wfList rest = true := by
  simp [wfList, and_assoc]

theorem filesOfTree_head {n : String} {t : FSTree} {pc : List String × List Nat}
    (h : pc ∈ filesOfTree n t) : ∃ q, pc.1 = n :: q := by
  cases t with
  | file c =>
    rw [show filesOfTree n (.file c) = [([n], c)] from rfl, List.mem_singleton] at h
    exact ⟨[], by rw [h]⟩
  | dir cs =>
    rw [show filesOfTree n (.dir cs)
        = (filesOfList cs).map (fun pc => (n :: pc.1, pc.2)) from rfl] at h
    obtain ⟨a, _, heq⟩ := List.mem_map.mp h
    exact ⟨a.1, by rw [← heq]⟩

theorem filesOfList_head (cs : FSList) (pc : List String × List Nat)
    (h : pc ∈ filesOfList cs) : ∃ m q, pc.1 = m :: q ∧ hasName cs m = true := by
  cases cs with
  | nil => simp [filesOfList] at h
  | cons n t rest =>
    rw [show filesOfList (.cons n t rest) = filesOfTree n t ++ filesOfList rest from rfl] at h
    rcases List.mem_append.mp h with h' | h'
    · obtain ⟨q, hq⟩ := filesOfTree_head h'
      exact ⟨n, q, hq, by simp [hasName]⟩
    · obtain ⟨m, q, hq, hm⟩ := filesOfList_head rest pc h'
      exact ⟨m, q, hq, by simp [hasName, hm]⟩
termination_by sizeOf cs

theorem filesOfList_valid (cs : FSList) (hwf : wfList cs = true) :
    ∀ pc ∈ filesOfList cs, pc.1 ≠ [] ∧ ∀ s ∈ pc.1, validName s = true := by
  cases cs with
  | nil =>
    intro pc h
    simp [filesOfList] at h
  | cons n t rest =>
    intro pc h
    obtain ⟨hv, ht, _, hr⟩ := wfList_cons.mp hwf
    rw [show filesOfList (.cons n t rest) = filesOfTree n t ++ filesOfList rest from rfl] at h
    rcases List.mem_append.mp h with h' | h'
    · cases t with
      | file c =>
        rw [show filesOfTree n (.file c) = [([n], c)] from rfl, List.mem_singleton] at h'
        refine ⟨by rw [h']; simp, ?_⟩
        intro s hs
        rw [h'] at hs
        simp at hs
        rw [hs]
        exact hv
      | dir ds =>
        rw [show filesOfTree n (.dir ds)
            = (filesOfList ds).map (fun pc => (n :: pc.1, pc.2)) from rfl] at h'
        obtain ⟨a, ha, heq⟩ := List.mem_map.mp h'
        have hrec := filesOfList_valid ds (by simpa [wfTree] using ht) a ha
        refine ⟨by rw [← heq]; simp, ?_⟩
        intro s hs
        rw [← heq] at hs
        rcases List.mem_cons.mp hs with rfl | hs'
        · exact hv
        · exact hrec.2 s hs'
    · exact filesOfList_valid rest hr pc h'
termination_by sizeOf cs

theorem filesOfList_paths_nodup (cs : FSList) (hwf : wfList cs = true) :
    ((filesOfList cs).map Prod.fst).Nodup := by
  cases cs with
  | nil => simp [filesOfList]
  | cons n t rest =>
    obtain ⟨_, ht, hh, hr⟩ := wfList_cons.mp hwf
    rw [show filesOfList (.cons n t rest) = filesOfTree n t ++ filesOfList rest from rfl,
      List.map_append]
    refine List.Nodup.append ?_ (filesOfList_paths_nodup rest hr) ?_
    · cases t with
      | file c => simp [filesOfTree]
      | dir ds =>
        rw [show filesOfTree n (.dir ds)
            = (filesOfList ds).map (fun pc => (n :: pc.1, pc.2)) from rfl, List.map_map]
        have hcomp : (Prod.fst ∘ fun pc : List String × List Nat => (n :: pc.1, pc.2))
            = (fun q => n :: q) ∘ Prod.fst := rfl
        rw [hcomp, ← List.map_map]
        exact (filesOfList_paths_nodup ds (by simpa [wfTree] using ht)).map List.cons_injective
    · intro p hp hp'
      obtain ⟨pc, hpc, heq⟩ := List.mem_map.mp hp
      obtain ⟨pc', hpc', heq'⟩ := List.mem_map.mp hp'
      obtain ⟨q, hq⟩ := filesOfTree_head hpc
      obtain ⟨m, q', hq', hm⟩ := filesOfList_head rest pc' hpc'
      have : n = m := by
        have h1 : p = n :: q := by rw [← heq, hq]
        have h2 : p = m :: q' := by rw [← heq', hq']
        have := h1.symm.trans h2
        injection this
      rw [this] at hh
      rw [hm] at hh
      exact Bool.true_eq_false.mp hh
termination_by sizeOf cs

/- ## The walk emits exactly the regular-file enumeration (up to order) -/

theorem walkList_perm (pre : List String) (cs : FSList) :
    (walkList pre cs).Perm ((filesOfList cs).map fun pc => (pre ++ pc.1, pc.2)) := by
  cases cs with
  | nil => simp [walkList, filesHere, walkSubs, filesOfList]
  | cons n t rest =>
    cases t with
    | file c =>
      have he : walkList pre (.cons n (.file c) rest) = (pre ++ [n], c) :: walkList pre rest := by
        simp [walkList, filesHere, walkSubs]
      rw [he, show filesOfList (.cons n (.file c) rest) = ([n], c) :: filesOfList rest from rfl,
        List.map_cons]
      exact (walkList_perm pre rest).cons _
    | dir ds =>
      have he : walkList pre (.cons n (.dir ds) rest) =
          ((filesHere rest).map fun nc => (pre ++ [nc.1], nc.2)) ++
            (walkList (pre ++ [n]) ds ++ walkSubs pre rest) := by
        simp [walkList, filesHere, walkSubs, List.append_assoc]
      rw [he, show filesOfList (.cons n (.dir ds) rest)
        = (filesOfList ds).map (fun pc => (n :: pc.1, pc.2)) ++ filesOfList rest from rfl,
        List.map_append, List.map_map]
      have hds := walkList_perm (pre ++ [n]) ds
      have hcomp : ((fun pc : List String × List Nat => (pre ++ pc.1, pc.2))
          ∘ fun pc : List String × List Nat => (n :: pc.1, pc.2))
          = fun pc : List String × List Nat => ((pre ++ [n]) ++ pc.1, pc.2) := by
        funext pc
        simp
      rw [hcomp]
      have hrest := walkList_perm pre rest
      exact (perm_swap_blocks _ _ _).trans (hds.append hrest)
termination_by sizeOf cs

/- ## Assembly lemmas for the checksum claims -/

theorem calculate_checksums_perm (H : List Nat → String) (d : FSList) :
    (calculate_checksums H d).Perm
      ((filesOfList d).map fun pc => (joinPath pc.1, H pc.2)) := by
  have h := walkList_perm [] d
  have h2 : ((filesOfList d).map fun pc : List String × List Nat => (([] : List String) ++ pc.1, pc.2))
      = filesOfList d := by
    simp
  rw [h2] at h
  simpa [calculate_checksums] using h.map fun pc => (joinPath pc.1, H pc.2)

theorem checksums_keys_nodup (H : List Nat → String) (d : FSList) (hwf : wfList d = true) :
    ((calculate_checksums H d).map Prod.fst).Nodup := by
  have hperm := (calculate_checksums_perm H d).map Prod.fst
  refine hperm.nodup_iff.mpr ?_
  rw [List.map_map]
  have hcomp : (Prod.fst ∘ fun pc : List String × List Nat => (joinPath pc.1, H pc.2))
      = joinPath ∘ Prod.fst := rfl
  rw [hcomp, ← List.map_map]
  refine List.Nodup.map_on ?_ (filesOfList_paths_nodup d hwf)
  intro x hx y hy hxy
  obtain ⟨pcx, hpcx, hex⟩ := List.mem_map.mp hx
  obtain ⟨pcy, hpcy, hey⟩ := List.mem_map.mp hy
  have vx := filesOfList_valid d hwf pcx hpcx
  have vy := filesOfList_valid d hwf pcy hpcy
  rw [← hex, ← hey]
  exact joinPath_inj pcx.1 pcy.1 vx.1 vy.1 vx.2 vy.2 (by rw [hex, hey]; exact hxy)

theorem lookupA_eq_of_mem {α : Type} (l : List (String × α)) (k : String) (v : α)
    (hnd : (l.map Prod.fst).Nodup) (hmem : (k, v) ∈ l) : lookupA l k = some v := by
  induction l with
  | nil => simp at hmem
  | cons p rest ih =>
    obtain ⟨k', v'⟩ := p
    rw [List.map_cons, List.nodup_cons] at hnd
    rcases List.mem_cons.mp hmem with he | hm
    · injection he with h1 h2
      rw [← h1, ← h2]
      simp [lookupA]
    · have hk : ¬(k' = k) := by
        intro hkk
        rw [hkk] at hnd
        exact hnd.1 (List.mem_map.mpr ⟨(k, v), hm, rfl⟩)
      simp only [lookupA, if_neg hk]
      exact ih hnd.2 hm

/- ## Claim C1 -/

/-- Claim C1: over any staging data directory (well-formed, as every tree a
real filesystem produces is: distinct sibling names, legal name components),
the checksum map returned by `calculate_checksums` is, up to dict order,
exactly one entry per regular file under the directory — keyed by the file's
relative path, no entries for directories, none missing, none extra (keys
pairwise distinct) — and the value at each file's key is the digest `H` of
that file's raw bytes, where `H` models
`hashlib.sha256(...).hexdigest()`. -/
theorem checksum_map_complete_correct (H : List Nat → String) (d : FSList)
    (hwf : wfList d = true) :
    (calculate_checksums H d).Perm
        ((filesOfList d).map fun pc => (joinPath pc.1, H pc.2))
      ∧ ((calculate_checksums H d).map Prod.fst).Nodup
      ∧ ∀ pc ∈ filesOfList d,
          lookupA (calculate_checksums H d) (joinPath pc.1) = some (H pc.2) := by
  refine ⟨calculate_checksums_perm H d, checksums_keys_nodup H d hwf, ?_⟩
  intro pc hpc
  have hmem : (joinPath pc.1, H pc.2) ∈ calculate_checksums H d :=
    (calculate_checksums_perm H d).mem_iff.mpr (List.mem_map.mpr ⟨pc, hpc, rfl⟩)
  exact lookupA_eq_of_mem _ _ _ (checksums_keys_nodup H d hwf) hmem

/-- Witness for C1 at the concrete payload of `sampleTree`. -/
theorem checksum_map_complete_correct_instance :
    wfList (removeName "DEBIAN" sampleTree) = true
      ∧ ((calculate_checksums sampleEnv.sha256hex (removeName "DEBIAN" sampleTree)).Perm
            ((filesOfList (removeName "DEBIAN" sampleTree)).map fun pc =>
              (joinPath pc.1, sampleEnv.sha256hex pc.2))
          ∧ (((calculate_checksums sampleEnv.sha256hex
                (removeName "DEBIAN" sampleTree)).map Prod.fst)).Nodup
          ∧ ∀ pc ∈ filesOfList (removeName "DEBIAN" sampleTree),
              lookupA (calculate_checksums sampleEnv.sha256hex (removeName "DEBIAN" sampleTree))
                (joinPath pc.1) = some (sampleEnv.sha256hex pc.2)) :=
  ⟨by decide, checksum_map_complete_correct sampleEnv.sha256hex
    (removeName "DEBIAN" sampleTree) (by decide)⟩

/- ## Claim C2 -/

/-- Claim C2: on every exit path of `convert` — normal completion or an
exception raised at any stage — the Job's temporary staging directory does
not remain on disk when `convert` returns or re-raises: the `finally`-block
cleanup (modelled by `cleanupState`, applied to every branch of the `try`
body) has removed it, and on extraction failure it was already removed by
`extract_deb` before raising.  The cleanup leaves the outcome itself
untouched: the value returned or the exception re-raised is exactly that of
the `try` body. -/
theorem convert_always_removes_temp_dir (w : World) :
    (convertRun w).2.tempExists = false ∧ (convertRun w).1 = (runStages w).1 :=
  ⟨rfl, rfl⟩

/- ## Claim C6 -/

/-- Claim C6: whenever the external tool fails to extract, `extract_deb` has
created the Job's temporary directory but removes it again before the
`ExtractionFailed` error — carrying the tool's diagnostic output — is
surfaced; and if the failure reaches `convert` (validation passed), the
error `convert` re-raises is exactly that error, with no temporary directory
left on disk. -/
theorem extract_failure_cleanup (w : World) (h : w.extractOk = false) :
    (extract_deb w).result
        = .error (.extractionFailed ("Failed to extract .deb: " ++ w.extractErr))
      ∧ (extract_deb w).tempCreated = true
      ∧ (extract_deb w).tempExists = false
      ∧ (w.inputExists = true → strEndsWith w.input ".deb" = true → w.infoOk = true →
          w.contentsOk = true →
          (convertRun w).1
              = .error (.extractionFailed ("Failed to extract .deb: " ++ w.extractErr))
            ∧ (convertRun w).2.tempExists = false) := by
  refine ⟨by simp [extract_deb, h], by simp [extract_deb, h], by simp [extract_deb, h], ?_⟩
  intro h1 h2 h3 h4
  constructor
  · simp [convertRun, runStages, validate_deb, extract_deb, h, h1, h2, h3, h4]
  · rfl

/-- Witness for C6 at `wExtractFail`. -/
theorem extract_failure_cleanup_instance :
    wExtractFail.extractOk = false
      ∧ ((extract_deb wExtractFail).result
            = .error (.extractionFailed ("Failed to extract .deb: " ++ wExtractFail.extractErr))
          ∧ (extract_deb wExtractFail).tempCreated = true
          ∧ (extract_deb wExtractFail).tempExists = false
          ∧ (wExtractFail.inputExists = true → strEndsWith wExtractFail.input ".deb" = true →
              wExtractFail.infoOk = true → wExtractFail.contentsOk = true →
              (convertRun wExtractFail).1
                  = .error (.extractionFailed
                      ("Failed to extract .deb: " ++ wExtractFail.extractErr))
                ∧ (convertRun wExtractFail).2.tempExists = false)) :=
  ⟨rfl, extract_failure_cleanup wExtractFail rfl⟩

/- ## Metadata lemmas -/

theorem lookupA_append {α : Type} (a b : List (String × α)) (k : String) :
    lookupA (a ++ b) k =
      match lookupA a k with
      | some v => some v
      | none => lookupA b k := by
  induction a with
  | nil => simp [lookupA]
  | cons p rest ih =>
    obtain ⟨k', v'⟩ := p
    by_cases h : k' = k
    · simp [lookupA, h]
    · simp [lookupA, h, ih]

theorem lookupA_base_none (now f : String) (hf : f ∈ control_files) :
    lookupA (base_metadata now) f = none := by
  simp only [control_files, List.mem_cons, List.not_mem_nil, or_false] at hf
  rcases hf with rfl | rfl | rfl | rfl | rfl | rfl | rfl <;> rfl

theorem metaEntries_lookup (decode : List Nat → String) (cs : FSList) :
    ∀ (fs : List String) (ms : List (String × String)),
      metaEntries decode cs fs = some ms →
      (∀ f ∈ fs, lookupA ms f =
          (match lookupFS cs f with
           | some (.file c) => some (decode c)
           | _ => none))
        ∧ ∀ f, f ∉ fs → lookupA ms f = none := by
  intro fs
  induction fs with
  | nil =>
    intro ms h
    simp only [metaEntries, Option.some_inj] at h
    subst h
    exact ⟨by simp, fun f _ => rfl⟩
  | cons g rest ih =>
    intro ms h
    cases hg : lookupFS cs g with
    | none =>
      rw [metaEntries, hg] at h
      obtain ⟨ih1, ih2⟩ := ih ms h
      constructor
      · intro f hf
        rcases List.mem_cons.mp hf with rfl | hfr
        · by_cases hfr' : f ∈ rest
          · rw [ih1 f hfr', hg]
          · rw [ih2 f hfr', hg]
        · exact ih1 f hfr
      · intro f hf
        exact ih2 f (fun hfr => hf (List.mem_cons_of_mem _ hfr))
    | some t =>
      cases t with
      | dir ds =>
        rw [metaEntries, hg] at h
        exact absurd h (by simp)
      | file c =>
        rw [metaEntries, hg] at h
        cases hrec : metaEntries decode cs rest with
        | none =>
          rw [hrec] at h
          exact absurd h (by simp)
        | some ms' =>
          rw [hrec] at h
          simp at h
          subst h
          obtain ⟨ih1, ih2⟩ := ih ms' hrec
          constructor
          · intro f hf
            by_cases hfg : g = f
            · subst hfg
              simp [lookupA, hg]
            · simp only [lookupA, if_neg hfg]
              rcases List.mem_cons.mp hf with rfl | hfr
              · exact absurd rfl hfg
              · exact ih1 f hfr
          · intro f hf
            have hfg : ¬(g = f) := fun he => hf (he ▸ List.mem_cons_self g rest)
            simp only [lookupA, if_neg hfg]
            exact ih2 f (fun hfr => hf (List.mem_cons_of_mem _ hfr))

/- ## Claim C4 -/

/-- Claim C4: whenever `generate_metadata` returns a record, that record
contains the four fixed stamp fields (creation timestamp, converter version,
converter identity, author), and for each name in the fixed control-file
list the record has a field under that name if and only if that file existed
as a regular file under the `DEBIAN` control subtree, the field's value being
the file's full text content verbatim (`decode` models the text codec of
Python text-mode reads). -/
theorem metadata_stamp_and_control_fields (now : String) (decode : List Nat → String)
    (temp : FSList) (m : List (String × String))
    (h : generate_metadata now decode temp = some m) :
    lookupA m "created" = some now
      ∧ lookupA m "converter_version" = some "1.0.0"
      ∧ lookupA m "converter" = some "debtoapg"
      ∧ lookupA m "author" = some "AnmiTaliDev"
      ∧ ∀ f ∈ control_files, lookupA m f = (controlContent temp f).map decode := by
  cases hd : lookupFS temp "DEBIAN" with
  | none =>
    rw [generate_metadata, hd] at h
    rw [Option.some_inj] at h
    subst h
    refine ⟨rfl, rfl, rfl, rfl, ?_⟩
    intro f hf
    rw [lookupA_base_none now f hf]
    simp [controlContent, hd]
  | some t =>
    cases t with
    | file c =>
      rw [generate_metadata, hd] at h
      rw [Option.some_inj] at h
      subst h
      refine ⟨rfl, rfl, rfl, rfl, ?_⟩
      intro f hf
      rw [lookupA_base_none now f hf]
      simp [controlContent, hd]
    | dir cs =>
      have h2 : Option.map (fun ms => base_metadata now ++ ms)
          (metaEntries decode cs control_files) = some m := by
        rw [generate_metadata, hd] at h
        exact h
      cases hme : metaEntries decode cs control_files with
      | none =>
        rw [hme] at h2
        exact absurd h2 (by simp)
      | some ms =>
        rw [hme] at h2
        simp at h2
        subst h2
        obtain ⟨hm1, _⟩ := metaEntries_lookup decode cs control_files ms hme
        refine ⟨?_, ?_, ?_, ?_, ?_⟩
        · rw [lookupA_append]
          rfl
        · rw [lookupA_append]
          rfl
        · rw [lookupA_append]
          rfl
        · rw [lookupA_append]
          rfl
        · intro f hf
          rw [lookupA_append, lookupA_base_none now f hf, hm1 f hf]
          cases hcf : lookupFS cs f with
          | none => simp [controlContent, hd, hcf]
          | some t' =>
            cases t' with
            | file c' => simp [controlContent, hd, hcf]
            | dir ds' => simp [controlContent, hd, hcf]

/-- Witness for C4 at the concrete staging tree `sampleTree`. -/
theorem metadata_stamp_and_control_fields_instance :
    generate_metadata sampleEnv.now sampleEnv.decode sampleTree
        = some (base_metadata sampleEnv.now ++ [("control", sampleEnv.decode [2, 3])])
      ∧ (lookupA (base_metadata sampleEnv.now ++ [("control", sampleEnv.decode [2, 3])]) "created"
            = some sampleEnv.now
          ∧ lookupA (base_metadata sampleEnv.now ++ [("control", sampleEnv.decode [2, 3])])
              "converter_version" = some "1.0.0"
          ∧ lookupA (base_metadata sampleEnv.now ++ [("control", sampleEnv.decode [2, 3])])
              "converter" = some "debtoapg"
          ∧ lookupA (base_metadata sampleEnv.now ++ [("control", sampleEnv.decode [2, 3])])
              "author" = some "AnmiTaliDev"
          ∧ ∀ f ∈ control_files,
              lookupA (base_metadata sampleEnv.now ++ [("control", sampleEnv.decode [2, 3])]) f
                = (controlContent sampleTree f).map sampleEnv.decode) :=
  ⟨rfl, metadata_stamp_and_control_fields sampleEnv.now sampleEnv.decode sampleTree
    (base_metadata sampleEnv.now ++ [("control", sampleEnv.decode [2, 3])]) rfl⟩

/- ## Lemmas about listing operations and archive names -/

theorem string_append_assoc (a b c : String) : a ++ b ++ c = a ++ (b ++ c) :=
  string_eq_of_data (by simp [string_data_append])

theorem joinPath_ne_nil (p : String) (ps : List String) (hv : validName p = true) :
    joinPath (p :: ps) ≠ "" := by
  cases ps with
  | nil => exact (validName_iff.mp hv).1
  | cons q qs =>
    intro h
    have hd := congrArg String.data h
    rw [joinPath_data_cons_cons] at hd
    simp at hd

theorem joinPath_append_single (ps : List String) : ∀ (p n : String),
    joinPath (p :: ps) ++ "/" ++ n = joinPath (p :: (ps ++ [n])) := by
  induction ps with
  | nil => intro p n; rfl
  | cons q qs ih =>
    intro p n
    rw [List.cons_append, joinPath_cons_cons p q (qs ++ [n]), ← ih q n,
      joinPath_cons_cons p q qs]
    simp [string_append_assoc]

theorem joinArc_joinPath (pre : List String) (n : String)
    (hpre : ∀ s ∈ pre, validName s = true) :
    joinArc (joinPath pre) n = joinPath (pre ++ [n]) := by
  cases pre with
  | nil => rfl
  | cons p ps =>
    have hne := joinPath_ne_nil p ps (hpre p (List.mem_cons_self _ _))
    rw [joinArc, if_neg hne]
    exact joinPath_append_single ps p n

theorem hasName_removeName (bad n : String) (l : FSList)
    (h : hasName (removeName bad l) n = true) : hasName l n = true := by
  cases l with
  | nil => simpa [removeName] using h
  | cons m t rest =>
    by_cases hb : m = bad
    · rw [removeName, if_pos hb] at h
      simp [hasName, hasName_removeName bad n rest h]
    · rw [removeName, if_neg hb] at h
      rw [hasName] at h ⊢
      rcases Bool.or_eq_true_iff.mp h with h' | h'
      · rw [h']
        simp
      · simp [hasName_removeName bad n rest h']
termination_by sizeOf l

theorem hasName_removeName_self (bad : String) (l : FSList) :
    hasName (removeName bad l) bad = false := by
  cases l with
  | nil => rfl
  | cons m t rest =>
    by_cases hb : m = bad
    · rw [removeName, if_pos hb]
      exact hasName_removeName_self bad rest
    · rw [removeName, if_neg hb, hasName]
      simp [hasName_removeName_self bad rest]
      intro he
      exact absurd he hb
termination_by sizeOf l

theorem namesOf_removeName (bad : String) (l : FSList) :
    namesOf (removeName bad l) = (namesOf l).filter (fun n => n != bad) := by
  cases l with
  | nil => rfl
  | cons m t rest =>
    by_cases hb : m = bad
    · rw [removeName, if_pos hb, namesOf, List.filter_cons]
      simp [hb, namesOf_removeName bad rest]
    · rw [removeName, if_neg hb, namesOf, namesOf, List.filter_cons]
      simp [hb, namesOf_removeName bad rest]
termination_by sizeOf l

theorem lookupFS_keepName (s : String) (l : FSList) :
    lookupFS (keepName s l) s = lookupFS l s := by
  cases l with
  | nil => rfl
  | cons m t rest =>
    by_cases hb : m = s
    · rw [keepName, if_pos hb, lookupFS, lookupFS, if_pos hb, if_pos hb]
    · rw [keepName, if_neg hb, lookupFS, if_neg hb, lookupFS_keepName s rest]
termination_by sizeOf l

theorem lookupFS_append (a b : FSList) (k : String) :
    lookupFS (appendFS a b) k =
      match lookupFS a k with
      | some t => some t
      | none => lookupFS b k := by
  cases a with
  | nil => rfl
  | cons m t rest =>
    by_cases hb : m = k
    · rw [appendFS, lookupFS, if_pos hb, lookupFS, if_pos hb]
    · rw [appendFS, lookupFS, if_neg hb, lookupFS, if_neg hb, lookupFS_append rest b k]
termination_by sizeOf a

theorem wfList_removeName (bad : String) (l : FSList) (h : wfList l = true) :
    wfList (removeName bad l) = true := by
  cases l with
  | nil => rfl
  | cons n t rest =>
    obtain ⟨hv, ht, hh, hr⟩ := wfList_cons.mp h
    by_cases hb : n = bad
    · rw [removeName, if_pos hb]
      exact wfList_removeName bad rest hr
    · rw [removeName, if_neg hb]
      refine wfList_cons.mpr ⟨hv, ht, ?_, wfList_removeName bad rest hr⟩
      cases hrm : hasName (removeName bad rest) n with
      | false => rfl
      | true => rw [hasName_removeName bad n rest hrm] at hh; exact hh
termination_by sizeOf l

theorem wf_apgChildren (moved : FSList) (b1 b2 : List Nat) (h : wfList moved = true) :
    wfList (FSList.cons "data" (.dir moved)
      (FSList.cons "metadata.json" (.file b1)
        (FSList.cons "checksums.json" (.file b2) FSList.nil))) = true := by
  refine wfList_cons.mpr ⟨rfl, by simpa [wfTree] using h, rfl, rfl⟩

theorem tarAddList_entries (cs : FSList) : ∀ (pre : List String),
    (∀ s ∈ pre, validName s = true) → wfList cs = true →
    tarAddList (joinPath pre) cs
      = (entriesOfList cs).map (fun pe => (joinPath (pre ++ pe.1), pe.2)) := by
  cases cs with
  | nil =>
    intro pre _ _
    rfl
  | cons n t rest =>
    intro pre hpre hwf
    obtain ⟨hv, ht, _, hr⟩ := wfList_cons.mp hwf
    have hpre' : ∀ s ∈ pre ++ [n], validName s = true := by
      intro s hs
      rcases List.mem_append.mp hs with h' | h'
      · exact hpre s h'
      · rw [List.mem_singleton.mp h']
        exact hv
    rw [show tarAddList (joinPath pre) (.cons n t rest)
        = tarAddTree (joinArc (joinPath pre) n) t ++ tarAddList (joinPath pre) rest from rfl,
      show entriesOfList (.cons n t rest) = entriesOfTree n t ++ entriesOfList rest from rfl,
      List.map_append, tarAddList_entries rest pre hpre hr, joinArc_joinPath pre n hpre]
    congr 1
    cases t with
    | file c =>
      rw [show entriesOfTree n (.file c) = [([n], .file c)] from rfl]
      rfl
    | dir ds =>
      rw [show tarAddTree (joinPath (pre ++ [n])) (.dir ds)
          = (joinPath (pre ++ [n]), TarEntry.dir) :: tarAddList (joinPath (pre ++ [n])) ds from rfl,
        show entriesOfTree n (.dir ds)
          = ([n], TarEntry.dir) :: (entriesOfList ds).map (fun pe => (n :: pe.1, pe.2)) from rfl,
        List.map_cons, List.map_map,
        tarAddList_entries ds (pre ++ [n]) hpre' (by simpa [wfTree] using ht)]
      congr 1
      apply List.map_congr_left
      intro pe _
      simp
termination_by sizeOf cs

theorem create_apg_ok_shape (env : Env) (temp : FSList) (r : ApgResult)
    (h : create_apg env temp = .ok r) :
    lookupFS temp "apg" = none
      ∧ env.tarOk = true
      ∧ ∃ md, generate_metadata env.now env.decode
            (appendFS (keepName "DEBIAN" temp)
              (FSList.cons "apg"
                (.dir (FSList.cons "data" (.dir (removeName "DEBIAN" temp)) FSList.nil))
                FSList.nil)) = some md
          ∧ r.apg = FSList.cons "data" (.dir (removeName "DEBIAN" temp))
              (FSList.cons "metadata.json" (.file (env.encode (env.jsonDump md)))
                (FSList.cons "checksums.json"
                  (.file (env.encode (env.jsonDump
                    (calculate_checksums env.sha256hex (removeName "DEBIAN" temp)))))
                  FSList.nil))
          ∧ r.temp = appendFS (keepName "DEBIAN" temp)
              (FSList.cons "apg" (.dir r.apg) FSList.nil)
          ∧ r.archive = tarAddTree "" (.dir r.apg) := by
  cases hl : lookupFS temp "apg" with
  | some t => simp [create_apg, hl] at h
  | none =>
    cases hmd : generate_metadata env.now env.decode
        (appendFS (keepName "DEBIAN" temp)
          (FSList.cons "apg"
            (.dir (FSList.cons "data" (.dir (removeName "DEBIAN" temp)) FSList.nil))
            FSList.nil)) with
    | none => simp [create_apg, hl, hmd] at h
    | some md =>
      cases htar : env.tarOk with
      | false => simp [create_apg, hl, hmd, htar] at h
      | true =>
        simp only [create_apg, hl, hmd, htar, Option.isSome_none, Bool.false_eq_true,
          if_false, if_true] at h
        rw [Except.ok.injEq] at h
        subst h
        exact ⟨rfl, rfl, md, rfl, rfl, rfl, rfl⟩

theorem hasName_eq_isSome_lookupFS (l : FSList) (k : String) :
    hasName l k = (lookupFS l k).isSome := by
  cases l with
  | nil => rfl
  | cons m t rest =>
    by_cases hb : m = k
    · rw [hasName, lookupFS, if_pos hb]
      simp [hb]
    · rw [hasName, lookupFS, if_neg hb, hasName_eq_isSome_lookupFS rest k]
      simp [hb]
termination_by sizeOf l

/- ## Claim C3 -/

/-- Counterexample to C3 as stated: on a staging tree whose control subtree
is `DEBIAN/control`, `create_apg` succeeds, yet after the restructuring (and
the whole of `create_apg`) the original control-metadata subtree still exists
as a directory at the staging root — the move loop skips it and nothing
deletes it before the Job-level cleanup. -/
theorem control_subtree_survives_restructuring :
    (create_apg sampleEnv sampleTree).toOption.map (fun r => lookupFS r.temp "DEBIAN")
      = some (some (.dir (.cons "control" (.file [2, 3]) .nil))) := rfl

/-- C3 corrected: once `create_apg` completes, the control subtree has been
excluded from the archive-root directory (no `DEBIAN` under `apg` nor under
`apg/data`; the metadata record derived from it is there instead), but it is
not deleted: it survives unchanged at the staging root until the Job-level
cleanup removes the whole temporary directory. -/
theorem restructure_excludes_control_from_archive_root (env : Env) (temp : FSList)
    (r : ApgResult) (h : create_apg env temp = .ok r) :
    lookupFS r.temp "DEBIAN" = lookupFS temp "DEBIAN"
      ∧ lookupFS r.apg "DEBIAN" = none
      ∧ lookupFS r.apg "data" = some (.dir (removeName "DEBIAN" temp))
      ∧ hasName (removeName "DEBIAN" temp) "DEBIAN" = false
      ∧ (∃ b, lookupFS r.apg "metadata.json" = some (.file b)) := by
  obtain ⟨hl, htar, md, hmd, happ, htemp, harch⟩ := create_apg_ok_shape env temp r h
  refine ⟨?_, ?_, ?_, hasName_removeName_self _ _, ?_⟩
  · rw [htemp, lookupFS_append, lookupFS_keepName]
    cases lookupFS temp "DEBIAN" with
    | some t => rfl
    | none => rfl
  · rw [happ]
    rfl
  · rw [happ]
    rfl
  · exact ⟨env.encode (env.jsonDump md), by rw [happ]; rfl⟩

/-- Witness for the corrected C3 at `sampleTree`. -/
theorem restructure_excludes_control_instance :
    create_apg sampleEnv sampleTree = .ok sampleApgResult
      ∧ (lookupFS sampleApgResult.temp "DEBIAN" = lookupFS sampleTree "DEBIAN"
        ∧ lookupFS sampleApgResult.apg "DEBIAN" = none
        ∧ lookupFS sampleApgResult.apg "data" = some (.dir (removeName "DEBIAN" sampleTree))
        ∧ hasName (removeName "DEBIAN" sampleTree) "DEBIAN" = false
        ∧ (∃ b, lookupFS sampleApgResult.apg "metadata.json" = some (.file b))) :=
  ⟨rfl, restructure_excludes_control_from_archive_root sampleEnv sampleTree sampleApgResult rfl⟩

/- ## Claim C7 -/

/-- Claim C7: the output archive written by a successful `create_apg`
contains every entry (files and directories) of the archive-root directory
`<staging>/apg`, with member names relative to the archive-root itself (its
own member being the empty relative name) — not relative to the staging
root — so the archive's logical root directly contains `data/`, the
metadata record file and the checksum record file. -/
theorem archive_rooted_at_apg_root (env : Env) (temp : FSList) (r : ApgResult)
    (hwf : wfList temp = true) (h : create_apg env temp = .ok r) :
    r.archive = ("", TarEntry.dir)
        :: (entriesOfList r.apg).map (fun pe => (joinPath pe.1, pe.2))
      ∧ ("data", TarEntry.dir) ∈ r.archive
      ∧ (∃ b, ("metadata.json", TarEntry.file b) ∈ r.archive)
      ∧ (∃ b, ("checksums.json", TarEntry.file b) ∈ r.archive) := by
  obtain ⟨hl, htar, md, hmd, happ, htemp, harch⟩ := create_apg_ok_shape env temp r h
  have hwfapg : wfList r.apg = true := by
    rw [happ]
    exact wf_apgChildren _ _ _ (wfList_removeName "DEBIAN" temp hwf)
  have hta : tarAddList "" r.apg
      = (entriesOfList r.apg).map (fun pe => (joinPath pe.1, pe.2)) := by
    have := tarAddList_entries r.apg [] (by simp) hwfapg
    simpa using this
  have harch2 : r.archive = ("", TarEntry.dir) :: tarAddList "" r.apg := by
    rw [harch]
    rfl
  refine ⟨by rw [harch2, hta], ?_, ?_, ?_⟩
  · rw [harch2, happ]
    simp [tarAddList, tarAddTree, joinArc]
  · refine ⟨env.encode (env.jsonDump md), ?_⟩
    rw [harch2, happ]
    simp [tarAddList, tarAddTree, joinArc]
  · refine ⟨env.encode (env.jsonDump
      (calculate_checksums env.sha256hex (removeName "DEBIAN" temp))), ?_⟩
    rw [harch2, happ]
    simp [tarAddList, tarAddTree, joinArc]

/-- Witness for C7 at `sampleTree`. -/
theorem archive_rooted_at_apg_root_instance :
    wfList sampleTree = true
      ∧ create_apg sampleEnv sampleTree = .ok sampleApgResult
      ∧ (sampleApgResult.archive = ("", TarEntry.dir)
            :: (entriesOfList sampleApgResult.apg).map (fun pe => (joinPath pe.1, pe.2))
        ∧ ("data", TarEntry.dir) ∈ sampleApgResult.archive
        ∧ (∃ b, ("metadata.json", TarEntry.file b) ∈ sampleApgResult.archive)
        ∧ (∃ b, ("checksums.json", TarEntry.file b) ∈ sampleApgResult.archive)) :=
  ⟨by decide, rfl,
   archive_rooted_at_apg_root sampleEnv sampleTree sampleApgResult (by decide) rfl⟩

/- ## Claim C10 -/

/-- Counterexample to C10 as stated: a payload entry literally named `apg`
is not silently excluded from the move — `os.makedirs(<staging>/apg)` raises
`FileExistsError` before the move loop, `create_apg` aborts, the conversion
fails, and no output archive is produced at all. -/
theorem apg_entry_aborts_create :
    create_apg sampleEnv (FSList.cons "apg" (.dir .nil) sampleTree) = .error .apgExists
      ∧ (convertRun wApgEntry).1 = .error (.packagingFailed .apgExists)
      ∧ (convertRun wApgEntry).2.archiveWritten = none :=
  ⟨rfl, rfl, rfl⟩

/-- C10 corrected: a top-level payload entry named `DEBIAN` is silently
excluded by the fixed-name test — the `data` directory of the archive root
holds exactly the top-level entries whose name differs from `DEBIAN`, so such
an entry never reaches the output archive; but a top-level entry named `apg`
aborts `create_apg` with `FileExistsError` instead of being silently
excluded. -/
theorem fixed_name_exclusion (env : Env) (temp : FSList) :
    (hasName temp "apg" = true → create_apg env temp = .error .apgExists)
      ∧ ∀ r, create_apg env temp = .ok r →
          lookupFS r.apg "data" = some (.dir (removeName "DEBIAN" temp))
            ∧ namesOf (removeName "DEBIAN" temp)
                = (namesOf temp).filter (fun n => n != "DEBIAN")
            ∧ hasName (removeName "DEBIAN" temp) "DEBIAN" = false := by
  constructor
  · intro hn
    have hs : (lookupFS temp "apg").isSome = true := by
      rw [← hasName_eq_isSome_lookupFS]
      exact hn
    rw [create_apg, if_pos hs]
  · intro r h
    obtain ⟨hl, htar, md, hmd, happ, htemp, harch⟩ := create_apg_ok_shape env temp r h
    exact ⟨by rw [happ]; rfl, namesOf_removeName _ _, hasName_removeName_self _ _⟩

/-- Witness for the corrected C10: the abort branch at a one-entry `apg`
tree, and the exclusion branch at `sampleTree`. -/
theorem fixed_name_exclusion_instance :
    hasName (FSList.cons "apg" (.dir .nil) FSList.nil) "apg" = true
      ∧ create_apg sampleEnv (FSList.cons "apg" (.dir .nil) FSList.nil) = .error .apgExists
      ∧ create_apg sampleEnv sampleTree = .ok sampleApgResult
      ∧ (lookupFS sampleApgResult.apg "data" = some (.dir (removeName "DEBIAN" sampleTree))
        ∧ namesOf (removeName "DEBIAN" sampleTree)
            = (namesOf sampleTree).filter (fun n => n != "DEBIAN")
        ∧ hasName (removeName "DEBIAN" sampleTree) "DEBIAN" = false) :=
  ⟨rfl, (fixed_name_exclusion sampleEnv (FSList.cons "apg" (.dir .nil) FSList.nil)).1 rfl,
   rfl, (fixed_name_exclusion sampleEnv sampleTree).2 sampleApgResult rfl⟩

/- ## Claim C5 -/

/-- Claim C5: `validate_deb` fails with `InvalidInput` when the path does not
exist or does not end in `.deb` — in which case no temporary directory is
created and no extraction is attempted; fails with `InvalidPackage`, with the
failing `dpkg-deb` query's diagnostic output attached, when the information
or contents query fails — still with no temporary directory and no
extraction; and returns success otherwise (the validator itself performs no
side effects: it is a pure function of the world). -/
theorem validate_deb_contract (w : World) :
    (w.inputExists = false →
        (convertRun w).1 = .error (.invalidInput "Input file does not exist")
          ∧ (convertRun w).2.tempCreated = false
          ∧ (convertRun w).2.extractionAttempted = false)
      ∧ (w.inputExists = true → strEndsWith w.input ".deb" = false →
          (convertRun w).1 = .error (.invalidInput "Input file must be a .deb package")
            ∧ (convertRun w).2.tempCreated = false
            ∧ (convertRun w).2.extractionAttempted = false)
      ∧ (w.inputExists = true → strEndsWith w.input ".deb" = true → w.infoOk = false →
          (convertRun w).1
              = .error (.invalidPackage ("Invalid or corrupted .deb package: " ++ w.infoErr))
            ∧ (convertRun w).2.tempCreated = false
            ∧ (convertRun w).2.extractionAttempted = false)
      ∧ (w.inputExists = true → strEndsWith w.input ".deb" = true → w.infoOk = true →
          w.contentsOk = false →
          (convertRun w).1
              = .error (.invalidPackage ("Invalid or corrupted .deb package: " ++ w.contentsErr))
            ∧ (convertRun w).2.tempCreated = false
            ∧ (convertRun w).2.extractionAttempted = false)
      ∧ (w.inputExists = true → strEndsWith w.input ".deb" = true → w.infoOk = true →
          w.contentsOk = true → validate_deb w = .ok ()) := by
  refine ⟨?_, ?_, ?_, ?_, ?_⟩
  · intro h1
    simp [convertRun, runStages, validate_deb, cleanupState, h1]
  · intro h1 h2
    simp [convertRun, runStages, validate_deb, cleanupState, h1, h2]
  · intro h1 h2 h3
    simp [convertRun, runStages, validate_deb, cleanupState, h1, h2, h3]
  · intro h1 h2 h3 h4
    simp [convertRun, runStages, validate_deb, cleanupState, h1, h2, h3, h4]
  · intro h1 h2 h3 h4
    simp [validate_deb, h1, h2, h3, h4]

/-- Witness for C5 at one world per branch of the contract. -/
theorem validate_deb_contract_instance :
    (wNoFile.inputExists = false
        ∧ ((convertRun wNoFile).1 = .error (.invalidInput "Input file does not exist")
          ∧ (convertRun wNoFile).2.tempCreated = false
          ∧ (convertRun wNoFile).2.extractionAttempted = false))
      ∧ (strEndsWith wBadExt.input ".deb" = false
        ∧ ((convertRun wBadExt).1 = .error (.invalidInput "Input file must be a .deb package")
          ∧ (convertRun wBadExt).2.tempCreated = false
          ∧ (convertRun wBadExt).2.extractionAttempted = false))
      ∧ (wBadInfo.infoOk = false
        ∧ ((convertRun wBadInfo).1
            = .error (.invalidPackage ("Invalid or corrupted .deb package: " ++ wBadInfo.infoErr))
          ∧ (convertRun wBadInfo).2.tempCreated = false
          ∧ (convertRun wBadInfo).2.extractionAttempted = false))
      ∧ (wBadContents.contentsOk = false
        ∧ ((convertRun wBadContents).1
            = .error (.invalidPackage
                ("Invalid or corrupted .deb package: " ++ wBadContents.contentsErr))
          ∧ (convertRun wBadContents).2.tempCreated = false
          ∧ (convertRun wBadContents).2.extractionAttempted = false))
      ∧ validate_deb sampleWorld = .ok () :=
  ⟨⟨rfl, (validate_deb_contract wNoFile).1 rfl⟩,
   ⟨rfl, (validate_deb_contract wBadExt).2.1 rfl rfl⟩,
   ⟨rfl, (validate_deb_contract wBadInfo).2.2.1 rfl rfl rfl⟩,
   ⟨rfl, (validate_deb_contract wBadContents).2.2.2.1 rfl rfl rfl rfl⟩,
   (validate_deb_contract sampleWorld).2.2.2.2 rfl rfl rfl rfl⟩

/- ## Claim C8 -/

/-- Counterexample to C8 as stated: the Packager (`create_apg`) returns no
byte size to its caller — its entire observable outcome is identical for two
runs whose written output files have different on-disk sizes, yet `convert`
reports the two different sizes, because the reported number comes from a
filesystem query (`os.path.getsize(output_file)`) performed by `convert`
itself, not from any return value of `create_apg` (which returns `None`). -/
theorem create_apg_returns_no_size :
    create_apg ({ sampleWorld with outSize := 0 } : World).env
        ({ sampleWorld with outSize := 0 } : World).extracted
        = create_apg ({ sampleWorld with outSize := 999999 } : World).env
            ({ sampleWorld with outSize := 999999 } : World).extracted
      ∧ (convertRun { sampleWorld with outSize := 0 }).2.reportedBytes = some 0
      ∧ (convertRun { sampleWorld with outSize := 999999 }).2.reportedBytes = some 999999 :=
  ⟨rfl, rfl, rfl⟩

/-- C8 corrected: `create_apg` itself returns no size; on every successful
run, the caller `convert` obtains the final archive's byte size from the
filesystem query on the output path and reports it (converted to MiB) to the
user. -/
theorem convert_reports_getsize (w : World) (h : (convertRun w).1 = .ok ()) :
    (convertRun w).2.reportedBytes = some w.outSize := by
  cases hv : validate_deb w with
  | error e =>
    have he : (convertRun w).1 = .error e := by simp [convertRun, runStages, hv]
    rw [he] at h
    exact absurd h (by simp)
  | ok u =>
    cases u
    cases hex : (extract_deb w).result with
    | error e =>
      have he : (convertRun w).1 = .error e := by simp [convertRun, runStages, hv, hex]
      rw [he] at h
      exact absurd h (by simp)
    | ok tree =>
      cases hca : create_apg w.env tree with
      | error ce =>
        have he : (convertRun w).1 = .error (.packagingFailed ce) := by
          simp [convertRun, runStages, hv, hex, hca]
        rw [he] at h
        exact absurd h (by simp)
      | ok r => simp [convertRun, runStages, hv, hex, hca, cleanupState]

/-- Witness for the corrected C8 at `sampleWorld`. -/
theorem convert_reports_getsize_instance :
    (convertRun sampleWorld).1 = .ok ()
      ∧ (convertRun sampleWorld).2.reportedBytes = some sampleWorld.outSize :=
  ⟨rfl, convert_reports_getsize sampleWorld rfl⟩

/- ## Claim C9 -/

/-- Counterexample to C9 as stated: with the version flag set and both the
input and the output argument missing, `main` prints no usage help and exits
0 (not non-zero) — the version check runs before the missing-argument
check. -/
theorem version_flag_overrides_missing_args :
    (mainRun { input := none, output := none, verbose := false, version := true }
        RunOutcome.ok).1 = 0
      ∧ MainAction.printedHelp
          ∉ (mainRun { input := none, output := none, verbose := false, version := true }
              RunOutcome.ok).2 :=
  ⟨rfl, by decide⟩

/-- C9 corrected: the version flag takes precedence — it prints the version
information, performs no conversion and exits 0 even when input or output is
missing; only when it is absent does a missing (or, by Python truthiness,
empty-string) input or output argument print the usage help and exit 1; then
a successful conversion exits 0, a handled conversion error prints its
message and exits 1, and a user interrupt exits 130. -/
theorem main_exit_codes (args : Args) (outcome : RunOutcome) :
    (args.version = true → mainRun args outcome = (0, [.printedVersion]))
      ∧ (args.version = false →
          (pyFalsy args.input = true ∨ pyFalsy args.output = true) →
          mainRun args outcome = (1, [.printedHelp]))
      ∧ (args.version = false → pyFalsy args.input = false → pyFalsy args.output = false →
          (outcome = .ok → mainRun args outcome = (0, [.ranConversion]))
            ∧ (outcome = .interrupted →
                mainRun args outcome = (130, [.ranConversion, .printedCancelled]))
            ∧ ∀ m, outcome = .raised m →
                mainRun args outcome = (1, [.ranConversion, .printedError m])) := by
  refine ⟨?_, ?_, ?_⟩
  · intro hv
    simp [mainRun, hv]
  · intro hv hio
    rcases hio with h | h <;> simp [mainRun, hv, h]
  · intro hv hi ho
    refine ⟨?_, ?_, ?_⟩
    · intro hoc
      subst hoc
      simp [mainRun, hv, hi, ho]
    · intro hoc
      subst hoc
      simp [mainRun, hv, hi, ho]
    · intro m hoc
      subst hoc
      simp [mainRun, hv, hi, ho]

/-- Witness for the corrected C9, one instance per behavior — including the
Python-falsy empty-string argument, which prints the help like a missing
one. -/
theorem main_exit_codes_instance :
    mainRun ⟨none, none, false, true⟩ RunOutcome.ok = (0, [.printedVersion])
      ∧ mainRun ⟨some "a.deb", none, false, false⟩ RunOutcome.ok = (1, [.printedHelp])
      ∧ mainRun ⟨some "", some "b.apg", false, false⟩ RunOutcome.ok = (1, [.printedHelp])
      ∧ mainRun ⟨some "a.deb", some "b.apg", false, false⟩ RunOutcome.ok
          = (0, [.ranConversion])
      ∧ mainRun ⟨some "a.deb", some "b.apg", false, false⟩ RunOutcome.interrupted
          = (130, [.ranConversion, .printedCancelled])
      ∧ mainRun ⟨some "a.deb", some "b.apg", false, false⟩ (RunOutcome.raised "E")
          = (1, [.ranConversion, .printedError "E"]) :=
  ⟨(main_exit_codes (⟨none, none, false, true⟩ : Args) RunOutcome.ok).1 rfl,
   (main_exit_codes (⟨some "a.deb", none, false, false⟩ : Args) RunOutcome.ok).2.1 rfl
     (Or.inr rfl),
   (main_exit_codes (⟨some "", some "b.apg", false, false⟩ : Args) RunOutcome.ok).2.1 rfl
     (Or.inl rfl),
   ((main_exit_codes (⟨some "a.deb", some "b.apg", false, false⟩ : Args)
       RunOutcome.ok).2.2 rfl rfl rfl).1 rfl,
   ((main_exit_codes (⟨some "a.deb", some "b.apg", false, false⟩ : Args)
       RunOutcome.interrupted).2.2 rfl rfl rfl).2.1 rfl,
   ((main_exit_codes (⟨some "a.deb", some "b.apg", false, false⟩ : Args)
       (RunOutcome.raised "E")).2.2 rfl rfl rfl).2.2 "E" rfl⟩

end DebToApg
